import Mathlib

/-!
# A shallow embedding of `pa1.c` (a small interactive shell)

The C file keeps its command history in a global intrusive list (`LIST_HEAD(history)`),
interprets a parsed token array in `run_command`, and drives everything from the
read loop in `main`.  The embedding below passes the global state explicitly
(`Shell`), records every externally visible action in a trace of `Event`s and takes
the answers of the operating system (`chdir`, `fork`, `execvp`, the environment) and
of the tokenizer from a record `Sys`.

`run_command` calls `__process_command`, which calls `run_command` again; this
recursion is not bounded in the C code, so the embedding carries a depth budget:
the result `none` means "no return within that many nested recalls".
-/

namespace Pa1

/-! ## Observable actions and results -/

/-- Externally visible actions of the shell process, in program order. -/
inductive Event where
  /-- A call `fprintf(stderr, ...)` with the text that is written -/
  | stderr (text : String)
  /-- A call `chdir(path)`; `none` is a NULL argument -/
  | chdir (path : Option String)
  /-- A call `fork()` together with the value it returned in the process being followed -/
  | fork (pid : Int)
  /-- A call `execvp(file, argv)`; `argv` is the token array up to its first NULL -/
  | execvp (file : String) (argv : List String)
  /-- A call `wait(&status)` -/
  | wait
  deriving DecidableEq, Repr

/-- How a call of `run_command` / `__process_command` ends in the process being followed. -/
inductive Outcome where
  /-- The function returns this `int` to its caller -/
  | ret (v : Int)
  /-- Success of `execvp`: the process image was replaced, control never comes back -/
  | execd
  /-- The C code has no defined behaviour here (NULL string, list head read as an entry) -/
  | undef
  deriving DecidableEq, Repr

/-- The global state of the program: the `history` list and what the process did so far.
`history` holds the `string` of each `struct entry` in `next` order starting from the list
head. -/
structure Shell where
  history : List String
  trace : List Event
  deriving DecidableEq, Repr

/-- The state right after `LIST_HEAD(history)`: an empty list, nothing done yet. -/
def Shell.init : Shell := ⟨[], []⟩

/-- Record one action at the end of the trace. -/
def Shell.emit (st : Shell) (e : Event) : Shell := { st with trace := st.trace ++ [e] }

/-- Record several actions, in order, at the end of the trace. -/
def Shell.emits (st : Shell) (es : List Event) : Shell := { st with trace := st.trace ++ es }

/-- The surroundings of one call: tokenizer, environment and system call results. -/
structure Sys where
  /-- The function `parse_command` of parser.c (not part of pa1.c): the tokens of a line -/
  parse_command : String → List String
  /-- The value of `getenv("HOME")` -/
  home : Option String
  /-- Return value of `chdir` for the given argument (0 or -1) -/
  chdir : Option String → Int
  /-- Return value of `fork()` in the process being followed: 0 in the child, the child's
  pid in the shell, -1 when no process could be created -/
  fork : Int
  /-- Whether `execvp(file, argv)` succeeds (it returns, with -1, only when it fails) -/
  execvp_ok : String → List String → Bool

/-- The constant `EINVAL` of errno.h. -/
def EINVAL : Int := 22

/-! ## list_head.h -/

/-- Modelled from the spec: list_head.h is not part of the sources. The history is the
intrusive, circular, doubly linked list of the Linux kernel (spec: "source uses an
embedded-node list", "append position = front"). `list_add(new, head)` links the new
node right after the head, so the new entry becomes the first one in `next` order. -/
def list_add (new : String) (history : List String) : List String := new :: history

/-- Modelled from the spec: list_head.h is not part of the sources. A cursor names one node
of the ring made of the list head and the entries: `0` is the list head itself and `c + 1`
is the entry at position `c` in `next` order. `list_last_entry(head)` is the entry of
`head->prev`: the last entry in `next` order, and the head itself when the list is empty. -/
def list_last_entry (history : List String) : Nat := history.length

/-- Modelled from the spec: list_head.h is not part of the sources.
`list_prev_entry(pos)` is the entry of `pos->list.prev`: one position earlier in `next`
order; before the first entry comes the list head, and before the head the last entry. -/
def list_prev_entry (history : List String) (pos : Nat) : Nat :=
  match pos with
  | 0 => history.length
  | c + 1 => c

/-- Reading `temp->string` at a cursor: `none` when the cursor is the list head, which is
not embedded in any `struct entry`. -/
def entry_string (history : List String) (pos : Nat) : Option String :=
  match pos with
  | 0 => none
  | c + 1 => history[c]?

/-! ## libc helpers -/

/-- The function `isspace` in the C locale. -/
def isspace (c : Char) : Bool :=
  c = ' ' || c = '\t' || c = '\n' || c = '\x0b' || c = '\x0c' || c = '\r'

/-- The decimal digits at the front of the text, accumulated left to right. -/
def atoi_digits : List Char → Nat → Nat
  | [], acc => acc
  | c :: cs, acc => if c.isDigit then atoi_digits cs (acc * 10 + (c.toNat - 48)) else acc

/-- The value `strtol(s, NULL, 10)` reads before any range handling. -/
def strtol_value (s : String) : Int :=
  match s.toList.dropWhile isspace with
  | '-' :: r => -((atoi_digits r 0 : Nat) : Int)
  | '+' :: r => ((atoi_digits r 0 : Nat) : Int)
  | r => ((atoi_digits r 0 : Nat) : Int)

/-- The function `atoi(s)` as glibc computes it: `(int) strtol(s, NULL, 10)`, that is the value read,
saturated to the range of `long` (64 bit) and then truncated to `int` (32 bit). -/
def atoi (s : String) : Int :=
  let v := strtol_value s
  let l := max (-(2 ^ 63 : Int)) (min v (2 ^ 63 - 1))
  (l + 2 ^ 31) % 2 ^ 32 - 2 ^ 31

/-- The conversion `%2d`: decimal, right aligned in a field of width two. -/
def fmt_2d (i : Nat) : String :=
  if i < 10 then " " ++ toString i else toString i

/-- The text `fprintf(stderr, "%2d: %s", i, s)` writes. -/
def history_line (i : Nat) (s : String) : String := fmt_2d i ++ ": " ++ s

/-! ## parser.c -/

/-- Split at white space; `cur` holds the characters of the token being read, reversed. -/
def split_ws : List Char → List Char → List String
  | [], cur => if cur.isEmpty then [] else [String.mk cur.reverse]
  | c :: cs, cur =>
    if isspace c then
      (if cur.isEmpty then split_ws cs [] else String.mk cur.reverse :: split_ws cs [])
    else split_ws cs (c :: cur)

/-- Modelled from the spec: parse_command (parser.c) is not part of the sources; the spec
describes it as turning a line "into whitespace-delimited tokens". Used for concrete
input lines only; the general statements hold for every tokenizer. -/
def parse_ws (line : String) : List String := split_ws line.toList []

/-! ## pa1.c -/

/-- The loop `list_for_each_entry_reverse(temp, &history, list)` of the `history` built-in:
it starts at `list_last_entry`, stops when the cursor is the list head (cursor `0`) and
moves with `list_prev_entry` (from cursor `c + 1` to cursor `c`), printing
`"%2d: %s"` with `i++` for every entry it visits. The counter is an `int` in C; it is
followed as a natural number, which is the same as long as fewer than 2^31 entries are
listed. -/
def history_loop (history : List String) : Nat → Nat → List Event
  | 0, _ => []
  | c + 1, i =>
    match entry_string history (c + 1) with
    | some s => Event.stderr (history_line i s) :: history_loop history c (i + 1)
    | none => []

/-- The loop `for (int i = 0; i < num; i++) temp = list_prev_entry(temp, list);`. -/
def prev_steps (history : List String) : Nat → Nat → Nat
  | 0, temp => temp
  | k + 1, temp => prev_steps history k (list_prev_entry history temp)

/-- The cursor the `!` built-in ends on for the number `num`: start at `list_last_entry`,
then `num` steps of `list_prev_entry` (none when `num` is not positive). -/
def bang_cursor (history : List String) (num : Int) : Nat :=
  prev_steps history num.toNat (list_last_entry history)

/-- The token array after `if (strcmp(tokens[i], "|") == 0) tokens[i] = NULL;` ran over
every index; `none` is NULL. -/
def null_pipes (tokens : List String) : List (Option String) :=
  tokens.map (fun t => if t = "|" then none else some t)

/-- What `execvp` sees as `argv`: the array up to its first NULL. -/
def argv_of : List (Option String) → List String
  | some t :: rest => t :: argv_of rest
  | _ => []

/-- What the `!` built-in does once the call `__process_command(inst)` is over: the value
that call returned is dropped, then `free(inst); return 1;`. Nothing is returned when the
call does not come back. -/
def bang_return : Option (Outcome × Shell) → Option (Outcome × Shell)
  | none => none
  | some (Outcome.ret _, st1) => some (Outcome.ret 1, st1)
  | some (Outcome.execd, st1) => some (Outcome.execd, st1)
  | some (Outcome.undef, st1) => some (Outcome.undef, st1)

/-- Body of `__process_command`, with the `run_command` it calls as a parameter.
The call `parse_command(command, &nr_tokens, tokens)` yields the tokens; its return value
is 0 exactly when it found no token, and then `__process_command` returns 1 at once. -/
def process_with (run : Shell → List String → Option (Outcome × Shell))
    (sys : Sys) (st : Shell) (command : String) : Option (Outcome × Shell) :=
  let tokens := sys.parse_command command
  if tokens.length = 0 then some (Outcome.ret 1, st)
  else run st tokens

/-- The `cd` branch of `run_command`: home directory for `cd` alone and for `cd ~`,
otherwise `chdir(tokens[1])`, whose failure is reported with `tokens[0]` in the message
and answered with `-EINVAL`. -/
def run_cd (sys : Sys) (st : Shell) (t0 : String) (args : List String) : Outcome × Shell :=
  match args with
  | [] => (Outcome.ret 1, st.emit (Event.chdir sys.home))
  | t1 :: _ =>
    if t1 = "~" then (Outcome.ret 1, st.emit (Event.chdir sys.home))
    else if sys.chdir (some t1) = -1 then
      (Outcome.ret (-EINVAL),
        (st.emit (Event.chdir (some t1))).emit
          (Event.stderr ("Unable to change directory to " ++ t0 ++ "\n")))
    else (Outcome.ret 1, st.emit (Event.chdir (some t1)))

/-- The `history` branch of `run_command`: the listing loop, then `return 1`. -/
def run_history (st : Shell) : Outcome × Shell :=
  (Outcome.ret 1, st.emits (history_loop st.history (list_last_entry st.history) 0))

/-- The `!` branch of `run_command`: `atoi(tokens[1])` (`tokens[1]` is NULL when `!` stands
alone), the walk from `list_last_entry`, the copy of `temp->string`, and the call
`__process_command(inst)`, here `reenter`. -/
def run_bang (reenter : Shell → String → Option (Outcome × Shell)) (st : Shell)
    (args : List String) : Option (Outcome × Shell) :=
  match args with
  | [] => some (Outcome.undef, st)
  | t1 :: _ =>
    match entry_string st.history (bang_cursor st.history (atoi t1)) with
    | none => some (Outcome.undef, st)
    | some inst => bang_return (reenter st inst)

/-- The child after `fork()` returned 0: `execvp(tokens[0], tokens)` on the array in which
every `"|"` was replaced by NULL; when it fails, the message and `return -EINVAL`. A NULL
`tokens[0]` is passed to `execvp` and to `%s` without a check. -/
def run_child (sys : Sys) (st : Shell) (toks : List (Option String)) : Outcome × Shell :=
  match toks with
  | some file :: _ =>
    if sys.execvp_ok file (argv_of toks) then
      (Outcome.execd, st.emit (Event.execvp file (argv_of toks)))
    else
      (Outcome.ret (-EINVAL),
        (st.emit (Event.execvp file (argv_of toks))).emit
          (Event.stderr ("Unable to execute " ++ file ++ "\n")))
  | _ => (Outcome.undef, st)

/-- The last part of `run_command`, reached by every command that is not a built-in:
the `"|"` tokens become NULL, one `fork()`, then the child runs `execvp` and every
other process (`pid` not 0, also -1) calls `wait` once and returns 1. -/
def run_external (sys : Sys) (st : Shell) (tokens : List String) : Outcome × Shell :=
  if sys.fork = 0 then run_child sys (st.emit (Event.fork sys.fork)) (null_pipes tokens)
  else (Outcome.ret 1, (st.emit (Event.fork sys.fork)).emit Event.wait)

/-- Body of `run_command`; `reenter` is the call `__process_command(inst)` of the `!`
built-in. An empty token array makes `tokens[0]` NULL. -/
def run_command_body (reenter : Shell → String → Option (Outcome × Shell))
    (sys : Sys) (st : Shell) (tokens : List String) : Option (Outcome × Shell) :=
  match tokens with
  | [] => some (Outcome.undef, st)
  | t0 :: args =>
    if t0 = "exit" then some (Outcome.ret 0, st)
    else if t0 = "cd" then some (run_cd sys st t0 args)
    else if t0 = "history" then some (run_history st)
    else if t0 = "!" then run_bang reenter st args
    else some (run_external sys st tokens)

/-- The function `run_command(nr_tokens, tokens)`. The first argument bounds how many
nested `!` recalls are followed; `none` means that the call did not return within that
depth. -/
def run_command (sys : Sys) : Nat → Shell → List String → Option (Outcome × Shell)
  | 0 => run_command_body (fun _ _ => none) sys
  | depth + 1 => run_command_body (process_with (run_command sys depth) sys) sys

/-- The function `__process_command(command)`, called from `main` and from the `!`
built-in. -/
def __process_command (sys : Sys) (depth : Nat) (st : Shell) (command : String) :
    Option (Outcome × Shell) :=
  process_with (run_command sys depth) sys st command

/-- The function `append_history(command)`: a new entry with a copy of the text is linked
in with `list_add`. -/
def append_history (st : Shell) (command : String) : Shell :=
  { st with history := list_add command st.history }

/-- The function `finalize`: unlink and free entries until the list is empty. -/
def finalize (st : Shell) : Shell := { st with history := [] }

/-- What one pass through the body of `while (true)` in `main` leads to. -/
inductive Ctl where
  /-- The loop goes round again -/
  | again
  /-- Statement `break`: `fgets` found the end of input, or `ret` was 0 -/
  | stop
  /-- The process image was replaced by `execvp` -/
  | execd
  /-- Undefined behaviour was reached -/
  | undef
  deriving DecidableEq, Repr

/-- One pass through the body of the loop in `main`; `input` is what `fgets` delivers
(`none` at the end of input). -/
def main_iteration (sys : Sys) (depth : Nat) (st : Shell) (input : Option String) :
    Option (Ctl × Shell) :=
  match input with
  | none => some (Ctl.stop, st)
  | some command =>
    match __process_command sys depth (append_history st command) command with
    | none => none
    | some (Outcome.ret v, st1) => if v = 0 then some (Ctl.stop, st1) else some (Ctl.again, st1)
    | some (Outcome.execd, st1) => some (Ctl.execd, st1)
    | some (Outcome.undef, st1) => some (Ctl.undef, st1)

/-- The loop of `main` over the lines `fgets` delivers, each with the system answers in
force while it is processed, followed by `finalize` once the loop is left. The result is
the state `main` returns with, `none` if a line never finishes within the depth. -/
def main_loop (depth : Nat) : List (Sys × String) → Shell → Option (Ctl × Shell)
  | [], st => some (Ctl.stop, finalize st)
  | (sys, command) :: rest, st =>
    match main_iteration sys depth st (some command) with
    | none => none
    | some (Ctl.again, st1) => main_loop depth rest st1
    | some (Ctl.stop, st1) => some (Ctl.stop, finalize st1)
    | some (c, st1) => some (c, st1)

/-- A system in which every call succeeds, seen from the shell process (fork gives a pid). -/
def sys_shell : Sys :=
  { parse_command := parse_ws, home := some "/root", chdir := fun _ => 0, fork := 4242,
    execvp_ok := fun _ _ => true }

/-- The same system seen from a freshly forked child in which no program can be run. -/
def sys_child_noexec : Sys :=
  { parse_command := parse_ws, home := some "/root", chdir := fun _ => 0, fork := 0,
    execvp_ok := fun _ _ => false }

/-- The same system as `sys_shell` except that every `chdir` to a given path fails. -/
def sys_nocd : Sys :=
  { parse_command := parse_ws, home := some "/root", chdir := fun _ => -1, fork := 4242,
    execvp_ok := fun _ _ => true }

/-! ## Reference notions used in the statements -/

/-- The lines `"%2d: %s"` for the given texts, numbered upwards from `i` in list order. -/
def numbered : Nat → List String → List Event
  | _, [] => []
  | i, s :: rest => Event.stderr (history_line i s) :: numbered (i + 1) rest

/-- The state after the given lines were passed to `append_history`, first to last,
starting from the empty history. -/
def appended (cmds : List String) : Shell := cmds.foldl append_history Shell.init

/-- Whether the first token selects one of the built-ins of `run_command`. -/
def is_builtin (t0 : String) : Bool :=
  t0 = "exit" || t0 = "cd" || t0 = "history" || t0 = "!"

/-- The pipeline stages as the spec describes them: the token sequence split at every
token `"|"`, the separators themselves dropped. -/
def spec_stages : List String → List (List String)
  | [] => [[]]
  | t :: rest =>
    if t = "|" then [] :: spec_stages rest
    else
      match spec_stages rest with
      | [] => [[t]]
      | stage :: more => (t :: stage) :: more

/-- How many processes the followed process created: the `fork` calls that returned a
pid. -/
def processes_created (trace : List Event) : Nat :=
  (trace.filter (fun e => match e with | Event.fork pid => decide (0 < pid) | _ => false)).length

/-- How many times the followed process called `fork`. -/
def forks (trace : List Event) : Nat :=
  (trace.filter (fun e => match e with | Event.fork _ => true | _ => false)).length

/-- How many times the followed process called `wait`. -/
def waits (trace : List Event) : Nat :=
  (trace.filter (fun e => match e with | Event.wait => true | _ => false)).length

/-! ## The history list -/

theorem appended_history_aux (cmds : List String) (st : Shell) :
    (cmds.foldl append_history st).history = cmds.reverse ++ st.history := by
  induction cmds generalizing st with
  | nil => simp
  | cons c cs ih => simp [List.foldl, ih, append_history, list_add]

theorem appended_history (cmds : List String) : (appended cmds).history = cmds.reverse := by
  simp [appended, appended_history_aux, Shell.init]

theorem appended_trace_aux (cmds : List String) (st : Shell) :
    (cmds.foldl append_history st).trace = st.trace := by
  induction cmds generalizing st with
  | nil => simp
  | cons c cs ih => simp [List.foldl, ih, append_history]

theorem appended_trace (cmds : List String) : (appended cmds).trace = [] := by
  simp [appended, appended_trace_aux, Shell.init]

theorem numbered_getElem? (xs : List String) (i k : Nat) :
    (numbered i xs)[k]? = (xs[k]?).map (fun s => Event.stderr (history_line (i + k) s)) := by
  induction xs generalizing i k with
  | nil => simp [numbered]
  | cons x xs ih =>
    cases k with
    | zero => simp [numbered]
    | succ k =>
      simp only [numbered, List.getElem?_cons_succ, ih]
      have : i + 1 + k = i + (k + 1) := by omega
      rw [this]

theorem numbered_length (xs : List String) (i : Nat) : (numbered i xs).length = xs.length := by
  induction xs generalizing i with
  | nil => simp [numbered]
  | cons x xs ih => simp [numbered, ih]

/-- The listing loop started at cursor `c` prints the first `c` entries (in `next` order)
backwards. -/
theorem history_loop_eq (h : List String) (c i : Nat) (hc : c ≤ h.length) :
    history_loop h c i = numbered i (h.take c).reverse := by
  induction c generalizing i with
  | zero => simp [history_loop, numbered]
  | succ c ih =>
    have hlt : c < h.length := by omega
    have htake : h.take (c + 1) = h.take c ++ [h[c]] := by
      rw [List.take_succ]; simp [List.getElem?_eq_getElem hlt]
    simp only [history_loop, entry_string, List.getElem?_eq_getElem hlt]
    rw [htake, List.reverse_append, ih (i + 1) (by omega)]
    simp [numbered]

theorem history_loop_full (h : List String) :
    history_loop h (list_last_entry h) 0 = numbered 0 h.reverse := by
  rw [list_last_entry, history_loop_eq h h.length 0 (le_refl _), List.take_length]

/-- Within the entries, `k` steps of `list_prev_entry` move the cursor down by `k`. -/
theorem prev_steps_sub (h : List String) (k c : Nat) (hk : k ≤ c) :
    prev_steps h k c = c - k := by
  induction k generalizing c with
  | zero => simp [prev_steps]
  | succ k ih =>
    cases c with
    | zero => omega
    | succ c =>
      simp only [prev_steps, list_prev_entry]
      rw [ih c (by omega)]; omega

theorem prev_steps_add (h : List String) (a b c : Nat) :
    prev_steps h (a + b) c = prev_steps h b (prev_steps h a c) := by
  induction a generalizing c with
  | zero => simp [prev_steps]
  | succ a ih =>
    have : a + 1 + b = (a + b) + 1 := by omega
    rw [this]
    simp only [prev_steps]
    rw [ih]

/-- Going once round the ring of the list head and the `N` entries leads back to the
start. -/
theorem prev_steps_cycle (h : List String) (c : Nat) (hc : c ≤ h.length) :
    prev_steps h (h.length + 1) c = c := by
  have e : h.length + 1 = c + (1 + (h.length - c)) := by omega
  rw [e, prev_steps_add, prev_steps_sub h c c (le_refl _), prev_steps_add]
  simp only [Nat.sub_self, prev_steps, list_prev_entry]
  rw [prev_steps_sub h _ _ (by omega)]; omega

theorem prev_steps_cycles (h : List String) (q c : Nat) (hc : c ≤ h.length) :
    prev_steps h (q * (h.length + 1)) c = c := by
  induction q with
  | zero => simp [prev_steps]
  | succ q ih =>
    have : (q + 1) * (h.length + 1) = q * (h.length + 1) + (h.length + 1) := by ring
    rw [this, prev_steps_add, ih, prev_steps_cycle h c hc]

/-- The cursor `!` ends on after `n` steps: `n mod (N + 1)` positions before the last
entry, on the ring of the list head and the `N` entries. -/
theorem bang_cursor_mod (h : List String) (n : Nat) :
    bang_cursor h (n : Int) = h.length - n % (h.length + 1) := by
  have hn : n = (n / (h.length + 1)) * (h.length + 1) + n % (h.length + 1) := by
    have := Nat.div_add_mod n (h.length + 1)
    rw [Nat.mul_comm] at this; omega
  have hlt : n % (h.length + 1) < h.length + 1 := Nat.mod_lt _ (by omega)
  simp only [bang_cursor, Int.toNat_ofNat, list_last_entry]
  conv_lhs => rw [hn]
  rw [prev_steps_add, prev_steps_cycles h _ _ (le_refl _), prev_steps_sub h _ _ (by omega)]

theorem entry_string_rev (h : List String) (r : Nat) (hr : r < h.length) :
    entry_string h (h.length - r) = h.reverse[r]? := by
  have e : h.length - r = (h.length - r - 1) + 1 := by omega
  rw [e]
  simp only [entry_string]
  rw [List.getElem?_reverse hr]
  congr 1
  omega

/-- What `!` reads after `n` steps: nothing that is an entry when `n mod (N + 1) = N`
(the cursor is the list head), otherwise the entry at position `n mod (N + 1)` from the
oldest. -/
theorem bang_entry (h : List String) (n : Nat) :
    entry_string h (bang_cursor h (n : Int)) =
      if n % (h.length + 1) = h.length then none else h.reverse[n % (h.length + 1)]? := by
  have hlt : n % (h.length + 1) < h.length + 1 := Nat.mod_lt _ (by omega)
  rw [bang_cursor_mod]
  split
  · next he => rw [he]; simp [entry_string]
  · next he => exact entry_string_rev h _ (by omega)

theorem bang_entry_in_range (h : List String) (n : Nat) (hn : n < h.length) :
    entry_string h (bang_cursor h (n : Int)) = h.reverse[n]? := by
  rw [bang_entry, Nat.mod_eq_of_lt (by omega)]
  simp; omega

/-! ## `run_command` -/

theorem bang_return_history (r : Option (Outcome × Shell)) (out : Outcome) (st1 : Shell)
    (h : bang_return r = some (out, st1)) : ∃ out0, r = some (out0, st1) := by
  match r with
  | none => simp [bang_return] at h
  | some (Outcome.ret v, s) => simp [bang_return] at h; exact ⟨_, by rw [h.2]⟩
  | some (Outcome.execd, s) => simp [bang_return] at h; exact ⟨_, by rw [h.2]⟩
  | some (Outcome.undef, s) => simp [bang_return] at h; exact ⟨_, by rw [h.2]⟩

theorem bang_return_ret (r : Option (Outcome × Shell)) (v : Int) (st1 : Shell)
    (h : bang_return r = some (Outcome.ret v, st1)) : v = 1 := by
  match r with
  | none => simp [bang_return] at h
  | some (Outcome.ret w, s) => simp [bang_return] at h; exact h.1.symm
  | some (Outcome.execd, s) => simp [bang_return] at h
  | some (Outcome.undef, s) => simp [bang_return] at h

theorem run_cd_history (sys : Sys) (st : Shell) (t0 : String) (args : List String) :
    (run_cd sys st t0 args).2.history = st.history := by
  unfold run_cd
  split
  · rfl
  · split_ifs <;> rfl

theorem run_child_history (sys : Sys) (st : Shell) (toks : List (Option String)) :
    (run_child sys st toks).2.history = st.history := by
  unfold run_child
  split
  · split_ifs <;> rfl
  · rfl

theorem run_external_history (sys : Sys) (st : Shell) (tokens : List String) :
    (run_external sys st tokens).2.history = st.history := by
  unfold run_external
  split_ifs
  · rw [run_child_history]; rfl
  · rfl

theorem run_bang_history (reenter : Shell → String → Option (Outcome × Shell))
    (hre : ∀ st s out st1, reenter st s = some (out, st1) → st1.history = st.history)
    (st : Shell) (args : List String) (out : Outcome) (st1 : Shell)
    (h : run_bang reenter st args = some (out, st1)) : st1.history = st.history := by
  unfold run_bang at h
  split at h
  · simp at h; rw [← h.2]
  · split at h
    · simp at h; rw [← h.2]
    · obtain ⟨out0, h0⟩ := bang_return_history _ _ _ h
      exact hre _ _ _ _ h0

/-- The body of `run_command` leaves the history as it is, provided the recursive call
does. -/
theorem run_command_body_history (reenter : Shell → String → Option (Outcome × Shell))
    (hre : ∀ st s out st1, reenter st s = some (out, st1) → st1.history = st.history)
    (sys : Sys) (st : Shell) (tokens : List String) (out : Outcome) (st1 : Shell)
    (h : run_command_body reenter sys st tokens = some (out, st1)) :
    st1.history = st.history := by
  unfold run_command_body at h
  split at h
  · simp at h; rw [← h.2]
  · next t0 args =>
    split_ifs at h
    · simp at h; rw [← h.2]
    · simp at h
      have := run_cd_history sys st t0 args
      rw [h] at this; exact this
    · simp at h
      have : (run_history st).2.history = st.history := rfl
      rw [h] at this; exact this
    · exact run_bang_history reenter hre st args out st1 h
    · simp at h
      have := run_external_history sys st (t0 :: args)
      rw [h] at this; exact this

theorem process_with_history (run : Shell → List String → Option (Outcome × Shell))
    (hrun : ∀ st tokens out st1, run st tokens = some (out, st1) → st1.history = st.history)
    (sys : Sys) (st : Shell) (command : String) (out : Outcome) (st1 : Shell)
    (h : process_with run sys st command = some (out, st1)) : st1.history = st.history := by
  unfold process_with at h
  simp only at h
  split_ifs at h
  · simp at h; rw [← h.2]
  · exact hrun _ _ _ _ h

/-- No branch of `run_command` changes the history list, at any depth of recall. -/
theorem run_command_history (sys : Sys) (depth : Nat) (st : Shell) (tokens : List String)
    (out : Outcome) (st1 : Shell) (h : run_command sys depth st tokens = some (out, st1)) :
    st1.history = st.history := by
  induction depth generalizing st tokens out st1 with
  | zero =>
    exact run_command_body_history _ (by intro _ _ _ _ h0; simp at h0) sys st tokens out st1 h
  | succ d ih =>
    exact run_command_body_history _
      (fun st s out st1 h0 => process_with_history _ ih sys st s out st1 h0) sys st tokens out st1 h

theorem process_command_history (sys : Sys) (depth : Nat) (st : Shell) (command : String)
    (out : Outcome) (st1 : Shell) (h : __process_command sys depth st command = some (out, st1)) :
    st1.history = st.history :=
  process_with_history _ (run_command_history sys depth) sys st command out st1 h

theorem run_cd_ret (sys : Sys) (st : Shell) (t0 : String) (args : List String) :
    (run_cd sys st t0 args).1 = Outcome.ret 1 ∨ (run_cd sys st t0 args).1 = Outcome.ret (-EINVAL) := by
  unfold run_cd
  split
  · simp
  · split_ifs <;> simp

theorem run_external_ret (sys : Sys) (st : Shell) (tokens : List String) (v : Int)
    (h : (run_external sys st tokens).1 = Outcome.ret v) : v = 1 ∨ v = -EINVAL := by
  unfold run_external at h
  split_ifs at h
  · unfold run_child at h
    split at h
    · split_ifs at h
      simp at h; exact Or.inr h.symm
    · simp at h
  · simp at h; exact Or.inl h.symm

/-- A value `run_command` returns is 0 exactly for `exit`; otherwise it is 1 or
`-EINVAL`. -/
theorem run_command_body_ret (reenter : Shell → String → Option (Outcome × Shell))
    (sys : Sys) (st : Shell) (t0 : String) (args : List String) (v : Int) (st1 : Shell)
    (h : run_command_body reenter sys st (t0 :: args) = some (Outcome.ret v, st1)) :
    (v = 0 ↔ t0 = "exit") ∧ (t0 ≠ "exit" → v = 1 ∨ v = -EINVAL) := by
  have hE : (1 : Int) ≠ 0 ∧ -EINVAL ≠ 0 := by decide
  have fin : ∀ w : Int, t0 ≠ "exit" → (w = 1 ∨ w = -EINVAL) →
      (w = 0 ↔ t0 = "exit") ∧ (t0 ≠ "exit" → w = 1 ∨ w = -EINVAL) := by
    intro w hne hw
    refine ⟨⟨fun h0 => ?_, fun h0 => absurd h0 hne⟩, fun _ => hw⟩
    rcases hw with hw | hw
    · exact absurd (hw ▸ h0) hE.1
    · exact absurd (hw ▸ h0) hE.2
  unfold run_command_body at h
  simp only at h
  split_ifs at h with h1 h2 h3 h4
  · simp at h; simp [h1, ← h.1]
  · simp at h
    have hc := run_cd_ret sys st t0 args
    rw [h] at hc
    simp at hc
    exact fin v h1 hc
  · simp [run_history] at h; exact fin v h1 (Or.inl h.1.symm)
  · unfold run_bang at h
    split at h
    · simp at h
    · split at h
      · simp at h
      · exact fin v h1 (Or.inl (bang_return_ret _ _ _ h))
  · simp at h
    exact fin v h1 (run_external_ret sys st (t0 :: args) v (by rw [h]))

theorem run_command_ret (sys : Sys) (depth : Nat) (st : Shell) (t0 : String)
    (args : List String) (v : Int) (st1 : Shell)
    (h : run_command sys depth st (t0 :: args) = some (Outcome.ret v, st1)) :
    (v = 0 ↔ t0 = "exit") ∧ (t0 ≠ "exit" → v = 1 ∨ v = -EINVAL) := by
  cases depth with
  | zero => exact run_command_body_ret _ sys st t0 args v st1 h
  | succ d => exact run_command_body_ret _ sys st t0 args v st1 h

theorem bang_return_some (r : Option (Outcome × Shell)) (x : Outcome × Shell)
    (h : bang_return r = some x) : ∃ r0, r = some r0 := by
  cases r with
  | none => simp [bang_return] at h
  | some r0 => exact ⟨r0, rfl⟩

/-- The body of `run_command` gives the same result with a recursive call that returns
more often. -/
theorem run_command_body_mono (f g : Shell → String → Option (Outcome × Shell))
    (hfg : ∀ st s r, f st s = some r → g st s = some r)
    (sys : Sys) (st : Shell) (tokens : List String) (r : Outcome × Shell)
    (h : run_command_body f sys st tokens = some r) :
    run_command_body g sys st tokens = some r := by
  unfold run_command_body at h ⊢
  split at h
  · exact h
  · split_ifs at h ⊢ <;> try exact h
    unfold run_bang at h ⊢
    split at h
    · exact h
    · split at h
      · exact h
      · next inst he =>
        obtain ⟨r0, h0⟩ := bang_return_some _ _ h
        rw [hfg _ _ _ h0]; rw [h0] at h; exact h

/-- A call that returns within some depth returns the same with one more level. -/
theorem run_command_mono (sys : Sys) (depth : Nat) (st : Shell) (tokens : List String)
    (r : Outcome × Shell) (h : run_command sys depth st tokens = some r) :
    run_command sys (depth + 1) st tokens = some r := by
  induction depth generalizing st tokens r with
  | zero =>
    exact run_command_body_mono _ _ (by intro _ _ _ h0; simp at h0) sys st tokens r h
  | succ d ih =>
    refine run_command_body_mono _ _ ?_ sys st tokens r h
    intro st0 s r0 h0
    unfold process_with at h0 ⊢
    simp only at h0 ⊢
    split_ifs at h0 ⊢
    · exact h0
    · exact ih _ _ _ h0

theorem run_command_history_eq (sys : Sys) (depth : Nat) (st : Shell) (args : List String) :
    run_command sys depth st ("history" :: args) = some (run_history st) := by
  cases depth <;> simp [run_command, run_command_body]

theorem run_command_bang_eq (sys : Sys) (depth : Nat) (st : Shell) (args : List String) :
    run_command sys (depth + 1) st ("!" :: args) =
      run_bang (__process_command sys depth) st args := by
  simp only [run_command, run_command_body]
  rw [if_neg (by decide), if_neg (by decide), if_neg (by decide), if_pos trivial]
  rfl

theorem run_command_bang_zero (sys : Sys) (st : Shell) (args : List String) :
    run_command sys 0 st ("!" :: args) = run_bang (fun _ _ => none) st args := by
  simp only [run_command, run_command_body]
  rw [if_neg (by decide), if_neg (by decide), if_neg (by decide), if_pos trivial]

theorem run_command_external_eq (sys : Sys) (depth : Nat) (st : Shell) (t0 : String)
    (args : List String) (hb : is_builtin t0 = false) :
    run_command sys depth st (t0 :: args) = some (run_external sys st (t0 :: args)) := by
  simp only [is_builtin, Bool.or_eq_false_iff, decide_eq_false_iff_not] at hb
  obtain ⟨⟨⟨h1, h2⟩, h3⟩, h4⟩ := hb
  cases depth <;> simp [run_command, run_command_body, h1, h2, h3, h4]

/-- The first stage of the spec's split is what `execvp` gets as `argv`. -/
theorem spec_stages_head (tokens : List String) :
    ∃ more, spec_stages tokens = argv_of (null_pipes tokens) :: more := by
  induction tokens with
  | nil => exact ⟨[], by simp [spec_stages, null_pipes, argv_of]⟩
  | cons t rest ih =>
    obtain ⟨more, hm⟩ := ih
    by_cases ht : t = "|"
    · exact ⟨spec_stages rest, by simp [spec_stages, null_pipes, argv_of, ht]⟩
    · refine ⟨more, ?_⟩
      simp only [spec_stages, if_neg ht, hm]
      simp [null_pipes, argv_of, ht]

/-- Only the `!` built-in can fail to return: every other first token is answered at once,
at every depth. -/
theorem run_command_total (sys : Sys) (depth : Nat) (st : Shell) (t0 : String)
    (args : List String) (hbang : t0 ≠ "!") :
    ∃ r, run_command sys depth st (t0 :: args) = some r := by
  cases depth <;> (simp only [run_command, run_command_body]; split_ifs <;> simp)

theorem main_iteration_total (sys : Sys) (depth : Nat) (st : Shell) (command : String)
    (hbang : (sys.parse_command command).head? ≠ some "!") :
    ∃ r, main_iteration sys depth st (some command) = some r := by
  simp only [main_iteration, __process_command, process_with]
  cases htk : sys.parse_command command with
  | nil => simp
  | cons t0 args =>
    rw [htk] at hbang
    obtain ⟨⟨out, st1⟩, hr⟩ := run_command_total sys depth (append_history st command) t0 args
      (by intro h; exact hbang (by simp [h]))
    rw [if_neg (by simp), hr]
    cases out with
    | ret v => simp only; split_ifs <;> simp
    | execd => simp
    | undef => simp

/-! ## The claims -/

/-- C1 (counterexample): after `a` and then `b` were appended, the `history` built-in
prints `a` with index 0 and `b` with index 1; the listing is not "most recent first". -/
theorem history_most_recent_first_fails :
    (run_command sys_shell 0 (appended ["a\n", "b\n"]) ["history"]).map (fun r => r.2.trace) =
        some [Event.stderr " 0: a\n", Event.stderr " 1: b\n"] ∧
    (run_command sys_shell 0 (appended ["a\n", "b\n"]) ["history"]).map (fun r => r.2.trace) ≠
        some (numbered 0 (["a\n", "b\n"].reverse)) := by
  decide

/-- C1 (amended): for every sequence of N lines appended with `append_history`, starting
from the empty history, the `history` built-in returns 1 and emits exactly N lines, in
append order (oldest first), numbered 0..N-1 in the order emitted: the line with index k
is the k-th line appended, so index 0 is the oldest line. -/
theorem history_lists_in_append_order (sys : Sys) (depth : Nat) (cmds args : List String) :
    ∃ lines, run_command sys depth (appended cmds) ("history" :: args) =
        some (Outcome.ret 1, ⟨(appended cmds).history, lines⟩) ∧
      lines.length = cmds.length ∧
      ∀ k, lines[k]? = (cmds[k]?).map (fun s => Event.stderr (history_line k s)) := by
  refine ⟨numbered 0 cmds, ?_, numbered_length cmds 0, ?_⟩
  · rw [run_command_history_eq]
    simp [run_history, Shell.emits, history_loop_full, appended_history, appended_trace]
  · intro k
    rw [numbered_getElem?]
    simp

/-- C2: for every history of N entries and every n < N, the `!` built-in of `run_command`,
given a token that `atoi` reads as n, starts at `list_last_entry`, takes n steps of
`list_prev_entry` and hands to `__process_command` exactly the text that the `history`
built-in of `run_command` prints as its line with index n: whatever `__process_command`
stands for, the `!` branch calls it on that text in the unchanged state. -/
theorem bang_selects_listed_entry (sys : Sys) (depth : Nat) (st : Shell) (t : String)
    (rest args : List String) (n : Nat) (ht : atoi t = (n : Int))
    (hn : n < st.history.length) :
    ∃ s lines,
      run_command sys depth st ("history" :: args) =
        some (Outcome.ret 1, ⟨st.history, st.trace ++ lines⟩) ∧
      lines[n]? = some (Event.stderr (history_line n s)) ∧
      entry_string st.history (bang_cursor st.history (atoi t)) = some s ∧
      run_command sys (depth + 1) st ("!" :: t :: rest) =
        bang_return (__process_command sys depth st s) ∧
      ∀ reenter : Shell → String → Option (Outcome × Shell),
        run_command_body reenter sys st ("!" :: t :: rest) = bang_return (reenter st s) := by
  have hr : n < st.history.reverse.length := by simpa using hn
  have hsel : entry_string st.history (bang_cursor st.history (atoi t)) =
      some st.history.reverse[n] := by
    rw [ht, bang_entry_in_range _ _ hn, List.getElem?_eq_getElem hr]
  have hbody : ∀ reenter : Shell → String → Option (Outcome × Shell),
      run_command_body reenter sys st ("!" :: t :: rest) =
        bang_return (reenter st st.history.reverse[n]) := by
    intro reenter
    simp only [run_command_body]
    rw [if_neg (by decide), if_neg (by decide), if_neg (by decide), if_pos trivial]
    simp only [run_bang, hsel]
  refine ⟨st.history.reverse[n], numbered 0 st.history.reverse, ?_, ?_, hsel, ?_, hbody⟩
  · rw [run_command_history_eq]
    simp [run_history, Shell.emits, history_loop_full]
  · rw [numbered_getElem?, List.getElem?_eq_getElem hr]
    simp
  · rw [run_command_bang_eq]
    simp only [run_bang, hsel]

theorem bang_selects_listed_entry_witness :
    atoi "1" = ((1 : Nat) : Int) ∧
    1 < (appended ["ls\n", "pwd\n", "history\n"]).history.length ∧
    ∃ s lines,
      run_command sys_shell 0 (appended ["ls\n", "pwd\n", "history\n"]) ("history" :: []) =
        some (Outcome.ret 1, ⟨(appended ["ls\n", "pwd\n", "history\n"]).history,
          (appended ["ls\n", "pwd\n", "history\n"]).trace ++ lines⟩) ∧
      lines[1]? = some (Event.stderr (history_line 1 s)) ∧
      entry_string (appended ["ls\n", "pwd\n", "history\n"]).history
        (bang_cursor (appended ["ls\n", "pwd\n", "history\n"]).history (atoi "1")) = some s ∧
      run_command sys_shell (0 + 1) (appended ["ls\n", "pwd\n", "history\n"])
          ("!" :: "1" :: []) =
        bang_return (__process_command sys_shell 0 (appended ["ls\n", "pwd\n", "history\n"]) s) ∧
      ∀ reenter : Shell → String → Option (Outcome × Shell),
        run_command_body reenter sys_shell (appended ["ls\n", "pwd\n", "history\n"])
          ("!" :: "1" :: []) =
        bang_return (reenter (appended ["ls\n", "pwd\n", "history\n"]) s) :=
  ⟨by decide, by decide,
    bang_selects_listed_entry sys_shell 0 (appended ["ls\n", "pwd\n", "history\n"]) "1" [] []
      1 (by decide) (by decide)⟩

/-- C3 (counterexample): with the two entries `history` and `! 3` in the log, the index 3
is out of range, yet `! 3` reports nothing: three steps of `list_prev_entry` go round the
list to the entry `history`, which is executed again, and `run_command` returns 1. -/
theorem bang_out_of_range_reexecutes :
    (appended ["history\n", "! 3\n"]).history.length ≤ 3 ∧
    entry_string (appended ["history\n", "! 3\n"]).history
        (bang_cursor (appended ["history\n", "! 3\n"]).history (atoi "3")) = some "history\n" ∧
    run_command sys_shell 1 (appended ["history\n", "! 3\n"]) ["!", "3"] =
      some (Outcome.ret 1, ⟨["! 3\n", "history\n"],
        [Event.stderr " 0: history\n", Event.stderr " 1: ! 3\n"]⟩) := by
  decide

/-- C3 (amended): for every history of N entries and every index n ≥ N with
n mod (N + 1) ≠ N, the `!` built-in makes no range check and reports no error of its own:
it resolves to the entry that `history` prints with index n mod (N + 1), executes that text
again exactly as for an index in range, and returns 1 whenever that execution returns. -/
theorem bang_out_of_range_wraps (sys : Sys) (depth : Nat) (st : Shell) (t : String)
    (rest : List String) (n : Nat) (ht : atoi t = (n : Int)) (_hn : st.history.length ≤ n)
    (hmod : n % (st.history.length + 1) ≠ st.history.length) :
    ∃ s, (history_loop st.history (list_last_entry st.history) 0)[n % (st.history.length + 1)]? =
        some (Event.stderr (history_line (n % (st.history.length + 1)) s)) ∧
      run_command sys (depth + 1) st ("!" :: t :: rest) =
        bang_return (__process_command sys depth st s) ∧
      ∀ v st1, __process_command sys depth st s = some (Outcome.ret v, st1) →
        run_command sys (depth + 1) st ("!" :: t :: rest) = some (Outcome.ret 1, st1) := by
  have hlt : n % (st.history.length + 1) < st.history.length + 1 := Nat.mod_lt _ (by omega)
  have hr : n % (st.history.length + 1) < st.history.reverse.length := by
    rw [List.length_reverse]; omega
  have hsel : entry_string st.history (bang_cursor st.history (atoi t)) =
      some st.history.reverse[n % (st.history.length + 1)] := by
    rw [ht, bang_entry, if_neg hmod, List.getElem?_eq_getElem hr]
  have hrun : run_command sys (depth + 1) st ("!" :: t :: rest) =
      bang_return (__process_command sys depth st
        st.history.reverse[n % (st.history.length + 1)]) := by
    rw [run_command_bang_eq]
    simp only [run_bang, hsel]
  refine ⟨st.history.reverse[n % (st.history.length + 1)], ?_, hrun, ?_⟩
  · rw [history_loop_full, numbered_getElem?, List.getElem?_eq_getElem hr]
    simp
  · intro v st1 hv
    rw [hrun, hv]
    rfl

theorem bang_out_of_range_wraps_witness :
    atoi "3" = ((3 : Nat) : Int) ∧
    (appended ["history\n", "! 3\n"]).history.length ≤ 3 ∧
    3 % ((appended ["history\n", "! 3\n"]).history.length + 1) ≠
      (appended ["history\n", "! 3\n"]).history.length ∧
    ∃ s, (history_loop (appended ["history\n", "! 3\n"]).history
          (list_last_entry (appended ["history\n", "! 3\n"]).history) 0)[
            3 % ((appended ["history\n", "! 3\n"]).history.length + 1)]? =
        some (Event.stderr
          (history_line (3 % ((appended ["history\n", "! 3\n"]).history.length + 1)) s)) ∧
      run_command sys_shell (0 + 1) (appended ["history\n", "! 3\n"]) ("!" :: "3" :: []) =
        bang_return (__process_command sys_shell 0 (appended ["history\n", "! 3\n"]) s) ∧
      ∀ v st1, __process_command sys_shell 0 (appended ["history\n", "! 3\n"]) s =
          some (Outcome.ret v, st1) →
        run_command sys_shell (0 + 1) (appended ["history\n", "! 3\n"]) ("!" :: "3" :: []) =
          some (Outcome.ret 1, st1) :=
  ⟨by decide, by decide, by decide,
    bang_out_of_range_wraps sys_shell 0 (appended ["history\n", "! 3\n"]) "3" [] 3
      (by decide) (by decide) (by decide)⟩

/-- C4: whenever `run_command` returns on a non-empty token sequence, the value is 0 if and
only if the first token is `exit`; for every other command it is 1 or `-EINVAL`, both
non-zero. Hence one pass of the loop in `main` leaves the loop only at the end of input or
when the first token of the line is `exit`, never because of an error. -/
theorem returns_zero_iff_exit (sys : Sys) (depth : Nat) (st : Shell) (t0 : String)
    (args : List String) (v : Int) (st1 : Shell)
    (h : run_command sys depth st (t0 :: args) = some (Outcome.ret v, st1)) :
    (v = 0 ↔ t0 = "exit") ∧ (t0 ≠ "exit" → (v = 1 ∨ v = -EINVAL) ∧ v ≠ 0) ∧
    ∀ (st2 st3 : Shell) (input : Option String),
      main_iteration sys depth st2 input = some (Ctl.stop, st3) →
        input = none ∨ ∃ command, input = some command ∧
          (sys.parse_command command).head? = some "exit" := by
  obtain ⟨h1, h2⟩ := run_command_ret sys depth st t0 args v st1 h
  refine ⟨h1, fun hne => ⟨h2 hne, fun h0 => hne (h1.mp h0)⟩, ?_⟩
  intro st2 st3 input hm
  cases input with
  | none => exact Or.inl rfl
  | some command =>
    refine Or.inr ⟨command, rfl, ?_⟩
    simp only [main_iteration, __process_command, process_with] at hm
    split at hm
    · simp at hm
    · next w st4 hp =>
      split_ifs at hp with hlen
      · simp at hp
        rw [← hp.1] at hm
        simp at hm
      · cases htk : sys.parse_command command with
        | nil => simp [htk] at hlen
        | cons a rest =>
          rw [htk] at hp
          have hw := (run_command_ret sys depth _ a rest w st4 hp).1
          split_ifs at hm with hz
          · simp [hw.mp hz]
          · simp at hm
    · simp at hm
    · simp at hm

theorem returns_zero_iff_exit_witness :
    run_command sys_nocd 0 Shell.init ("cd" :: ["/nonexistent"]) =
      some (Outcome.ret (-22), ⟨[], [Event.chdir (some "/nonexistent"),
        Event.stderr "Unable to change directory to cd\n"]⟩) ∧
    (((-22 : Int) = 0 ↔ "cd" = "exit") ∧
      ("cd" ≠ "exit" → ((-22 : Int) = 1 ∨ (-22 : Int) = -EINVAL) ∧ (-22 : Int) ≠ 0) ∧
      ∀ (st2 st3 : Shell) (input : Option String),
        main_iteration sys_nocd 0 st2 input = some (Ctl.stop, st3) →
          input = none ∨ ∃ command, input = some command ∧
            (sys_nocd.parse_command command).head? = some "exit") :=
  ⟨by decide,
    returns_zero_iff_exit sys_nocd 0 Shell.init "cd" ["/nonexistent"] (-22)
      ⟨[], [Event.chdir (some "/nonexistent"),
        Event.stderr "Unable to change directory to cd\n"]⟩ (by decide)⟩

/-- C5 (counterexample): `echo hello | tr a-z A-Z` has two non-empty stages, but the shell
forks once and waits once; the one child runs `echo hello`, and `tr` is run by nobody. -/
theorem pipeline_forks_once :
    spec_stages ["echo", "hello", "|", "tr", "a-z", "A-Z"] =
      [["echo", "hello"], ["tr", "a-z", "A-Z"]] ∧
    run_command sys_shell 0 Shell.init ["echo", "hello", "|", "tr", "a-z", "A-Z"] =
      some (Outcome.ret 1, ⟨[], [Event.fork 4242, Event.wait]⟩) ∧
    processes_created [Event.fork 4242, Event.wait] = 1 ∧
    run_command { sys_shell with fork := 0 } 0 Shell.init
        ["echo", "hello", "|", "tr", "a-z", "A-Z"] =
      some (Outcome.execd, ⟨[], [Event.fork 0, Event.execvp "echo" ["echo", "hello"]]⟩) := by
  decide

/-- C5 (amended): for every token sequence that is not a built-in and that consists of k+1
non-empty stages separated by k tokens `"|"`, `run_command` forks exactly once, whatever k
is. The shell (a pid was returned) has created one process, waits once and returns 1; the
child calls `execvp` once, with the first stage as its argument vector, so that no `"|"`
token and no later stage is passed to any process; when that `execvp` fails the child
reports the program name and `run_command` returns `-EINVAL` in the child. -/
theorem external_runs_first_stage_only (sys : Sys) (depth : Nat) (st : Shell) (t0 : String)
    (args : List String) (stage : List String) (more : List (List String))
    (hb : is_builtin t0 = false) (hst : spec_stages (t0 :: args) = stage :: more)
    (hne : ∀ x ∈ stage :: more, x ≠ []) :
    (0 < sys.fork →
      run_command sys depth st (t0 :: args) =
          some (Outcome.ret 1, ⟨st.history, st.trace ++ [Event.fork sys.fork, Event.wait]⟩) ∧
        processes_created [Event.fork sys.fork, Event.wait] = 1 ∧
        waits [Event.fork sys.fork, Event.wait] = 1) ∧
    (sys.fork = 0 →
      run_command sys depth st (t0 :: args) =
        if sys.execvp_ok t0 stage then
          some (Outcome.execd, ⟨st.history, st.trace ++ [Event.fork 0, Event.execvp t0 stage]⟩)
        else
          some (Outcome.ret (-EINVAL), ⟨st.history, st.trace ++ [Event.fork 0,
            Event.execvp t0 stage, Event.stderr ("Unable to execute " ++ t0 ++ "\n")]⟩)) := by
  have hargv : argv_of (null_pipes (t0 :: args)) = stage := by
    obtain ⟨m, hm⟩ := spec_stages_head (t0 :: args)
    rw [hst] at hm
    simp at hm
    exact hm.1.symm
  have ht0 : t0 ≠ "|" := by
    intro h0
    have : argv_of (null_pipes (t0 :: args)) = [] := by simp [null_pipes, argv_of, h0]
    rw [hargv] at this
    exact hne stage (by simp) this
  have hnp : null_pipes (t0 :: args) = some t0 :: null_pipes args := by
    simp [null_pipes, ht0]
  rw [run_command_external_eq sys depth st t0 args hb]
  constructor
  · intro hpos
    have hnz : sys.fork ≠ 0 := by omega
    refine ⟨?_, ?_, ?_⟩
    · simp [run_external, hnz, Shell.emit]
    · simp [processes_created, hpos]
    · simp [waits]
  · intro hz
    simp only [run_external, hz, if_true]
    rw [hnp]
    simp only [run_child]
    rw [← hnp, hargv]
    split_ifs <;> simp [Shell.emit]

theorem external_runs_first_stage_only_witness :
    is_builtin "ls" = false ∧
    spec_stages ("ls" :: ["-l", "|", "wc", "|", "cat"]) = ["ls", "-l"] :: [["wc"], ["cat"]] ∧
    (∀ x ∈ ["ls", "-l"] :: [["wc"], ["cat"]], x ≠ []) ∧
    ((0 < sys_shell.fork →
      run_command sys_shell 0 Shell.init ("ls" :: ["-l", "|", "wc", "|", "cat"]) =
          some (Outcome.ret 1, ⟨Shell.init.history,
            Shell.init.trace ++ [Event.fork sys_shell.fork, Event.wait]⟩) ∧
        processes_created [Event.fork sys_shell.fork, Event.wait] = 1 ∧
        waits [Event.fork sys_shell.fork, Event.wait] = 1) ∧
    (sys_shell.fork = 0 →
      run_command sys_shell 0 Shell.init ("ls" :: ["-l", "|", "wc", "|", "cat"]) =
        if sys_shell.execvp_ok "ls" ["ls", "-l"] then
          some (Outcome.execd, ⟨Shell.init.history,
            Shell.init.trace ++ [Event.fork 0, Event.execvp "ls" ["ls", "-l"]]⟩)
        else
          some (Outcome.ret (-EINVAL), ⟨Shell.init.history, Shell.init.trace ++ [Event.fork 0,
            Event.execvp "ls" ["ls", "-l"], Event.stderr ("Unable to execute " ++ "ls" ++ "\n")]⟩))) :=
  ⟨by decide, by decide, by decide,
    external_runs_first_stage_only sys_shell 0 Shell.init "ls" ["-l", "|", "wc", "|", "cat"]
      ["ls", "-l"] [["wc"], ["cat"]] (by decide) (by decide) (by decide)⟩

/-- C6 (counterexample): `a | | b` has an empty stage, yet the shell forks, waits and
returns 1; nothing is reported and a process is created. -/
theorem empty_stage_still_forks :
    [] ∈ spec_stages ["a", "|", "|", "b"] ∧
    is_builtin "a" = false ∧
    run_command sys_shell 0 Shell.init ["a", "|", "|", "b"] =
      some (Outcome.ret 1, ⟨[], [Event.fork 4242, Event.wait]⟩) ∧
    forks [Event.fork 4242, Event.wait] = 1 ∧
    processes_created [Event.fork 4242, Event.wait] = 1 := by
  decide

/-- C6 (amended): for every non-built-in token sequence that contains an empty pipeline
stage (two adjacent `"|"`, or a leading or trailing `"|"`), `run_command` makes no check of
the stages: in the shell process it performs exactly one `fork`, calls `wait` once, writes
no error message and returns 1. -/
theorem empty_stage_not_detected (sys : Sys) (depth : Nat) (st : Shell) (t0 : String)
    (args : List String) (hb : is_builtin t0 = false)
    (_hempty : [] ∈ spec_stages (t0 :: args)) (hshell : sys.fork ≠ 0) :
    run_command sys depth st (t0 :: args) =
        some (Outcome.ret 1, ⟨st.history, st.trace ++ [Event.fork sys.fork, Event.wait]⟩) ∧
      forks [Event.fork sys.fork, Event.wait] = 1 ∧
      waits [Event.fork sys.fork, Event.wait] = 1 := by
  rw [run_command_external_eq sys depth st t0 args hb]
  refine ⟨?_, ?_, ?_⟩
  · simp [run_external, hshell, Shell.emit]
  · simp [forks]
  · simp [waits]

theorem empty_stage_not_detected_witness :
    is_builtin "|" = false ∧ [] ∈ spec_stages ("|" :: ["sort"]) ∧ sys_shell.fork ≠ 0 ∧
    (run_command sys_shell 0 Shell.init ("|" :: ["sort"]) =
        some (Outcome.ret 1, ⟨Shell.init.history,
          Shell.init.trace ++ [Event.fork sys_shell.fork, Event.wait]⟩) ∧
      forks [Event.fork sys_shell.fork, Event.wait] = 1 ∧
      waits [Event.fork sys_shell.fork, Event.wait] = 1) :=
  ⟨by decide, by decide, by decide,
    empty_stage_not_detected sys_shell 0 Shell.init "|" ["sort"] (by decide) (by decide)
      (by decide)⟩

/-- C7: one pass of the loop in `main` over a line (`append_history`, then
`__process_command`) leaves a history that is the old one with exactly that raw line added
in front, whatever the line is and however deep `!` recalls nest; and `run_command` on its
own returns with the history list it was called with, in every branch. The pass does
come to an end for every line that is not a `!` recall. -/
theorem history_grows_by_the_line_only (sys : Sys) (depth : Nat) (st st1 st2 st3 : Shell)
    (command : String) (ctl : Ctl) (tokens : List String) (out : Outcome)
    (hmain : main_iteration sys depth st (some command) = some (ctl, st1))
    (hrun : run_command sys depth st2 tokens = some (out, st3)) :
    st1.history = command :: st.history ∧ st1.history.length = st.history.length + 1 ∧
      st3.history = st2.history ∧
      ((sys.parse_command command).head? ≠ some "!" →
        ∃ r, main_iteration sys depth st (some command) = some r) := by
  have h1 : st1.history = command :: st.history := by
    simp only [main_iteration] at hmain
    split at hmain
    · simp at hmain
    · next w st4 hp =>
      have := process_command_history sys depth _ command _ st4 hp
      split_ifs at hmain <;> (simp at hmain; rw [← hmain.2, this]; rfl)
    · next st4 hp =>
      have := process_command_history sys depth _ command _ st4 hp
      simp at hmain; rw [← hmain.2, this]; rfl
    · next st4 hp =>
      have := process_command_history sys depth _ command _ st4 hp
      simp at hmain; rw [← hmain.2, this]; rfl
  exact ⟨h1, by rw [h1]; simp, run_command_history sys depth st2 tokens out st3 hrun,
    main_iteration_total sys depth st command⟩

theorem history_grows_by_the_line_only_witness :
    main_iteration sys_shell 1 (appended ["ls\n"]) (some "! 0\n") =
      some (Ctl.again, ⟨["! 0\n", "ls\n"], [Event.fork 4242, Event.wait]⟩) ∧
    run_command sys_shell 1 (appended ["ls\n", "! 0\n"]) ["!", "0"] =
      some (Outcome.ret 1, ⟨["! 0\n", "ls\n"], [Event.fork 4242, Event.wait]⟩) ∧
    ((⟨["! 0\n", "ls\n"], [Event.fork 4242, Event.wait]⟩ : Shell).history =
        "! 0\n" :: (appended ["ls\n"]).history ∧
      (⟨["! 0\n", "ls\n"], [Event.fork 4242, Event.wait]⟩ : Shell).history.length =
        (appended ["ls\n"]).history.length + 1 ∧
      (⟨["! 0\n", "ls\n"], [Event.fork 4242, Event.wait]⟩ : Shell).history =
        (appended ["ls\n", "! 0\n"]).history ∧
      ((sys_shell.parse_command "! 0\n").head? ≠ some "!" →
        ∃ r, main_iteration sys_shell 1 (appended ["ls\n"]) (some "! 0\n") = some r)) :=
  ⟨by decide, by decide,
    history_grows_by_the_line_only sys_shell 1 (appended ["ls\n"])
      ⟨["! 0\n", "ls\n"], [Event.fork 4242, Event.wait]⟩ (appended ["ls\n", "! 0\n"])
      ⟨["! 0\n", "ls\n"], [Event.fork 4242, Event.wait]⟩ "! 0\n" Ctl.again ["!", "0"]
      (Outcome.ret 1) (by decide) (by decide)⟩

/-- C8 (counterexample): with `exit` as the entry of index 0, the line `! 0` returns 1
while the text `exit` interpreted directly returns 0; and with a `cd` that fails as the
entry of index 0, `! 0` returns 1 while the text interpreted directly returns -22. -/
theorem bang_drops_return_value :
    entry_string (appended ["exit\n", "! 0\n"]).history
      (bang_cursor (appended ["exit\n", "! 0\n"]).history (atoi "0")) = some "exit\n" ∧
    __process_command sys_shell 1 (appended ["exit\n", "! 0\n"]) "! 0\n" =
      some (Outcome.ret 1, appended ["exit\n", "! 0\n"]) ∧
    __process_command sys_shell 1 (appended ["exit\n", "! 0\n"]) "exit\n" =
      some (Outcome.ret 0, appended ["exit\n", "! 0\n"]) ∧
    (__process_command sys_nocd 1 (appended ["cd /nonexistent\n", "! 0\n"]) "! 0\n").map
      (fun r => r.1) = some (Outcome.ret 1) ∧
    (__process_command sys_nocd 1 (appended ["cd /nonexistent\n", "! 0\n"])
      "cd /nonexistent\n").map (fun r => r.1) = some (Outcome.ret (-22)) := by
  decide

/-- C8 (amended): for every history and every index n in range, interpreting `! n` does
what interpreting the resolved history text (the one `history` lists with index n) does
and ends in the same state, but the value that interpretation returns is dropped: whenever
it returns, with whatever value, `run_command` returns 1 for `! n`. -/
theorem bang_returns_one (sys : Sys) (depth : Nat) (st : Shell) (t : String)
    (rest : List String) (n : Nat) (ht : atoi t = (n : Int)) (hn : n < st.history.length) :
    ∃ s, (history_loop st.history (list_last_entry st.history) 0)[n]? =
        some (Event.stderr (history_line n s)) ∧
      run_command sys (depth + 1) st ("!" :: t :: rest) =
        bang_return (__process_command sys depth st s) ∧
      ∀ v st1, __process_command sys depth st s = some (Outcome.ret v, st1) →
        run_command sys (depth + 1) st ("!" :: t :: rest) = some (Outcome.ret 1, st1) := by
  have hr : n < st.history.reverse.length := by simpa using hn
  have hsel : entry_string st.history (bang_cursor st.history (atoi t)) =
      some st.history.reverse[n] := by
    rw [ht, bang_entry_in_range _ _ hn, List.getElem?_eq_getElem hr]
  have hrun : run_command sys (depth + 1) st ("!" :: t :: rest) =
      bang_return (__process_command sys depth st st.history.reverse[n]) := by
    rw [run_command_bang_eq]
    simp only [run_bang, hsel]
  refine ⟨st.history.reverse[n], ?_, hrun, ?_⟩
  · rw [history_loop_full, numbered_getElem?, List.getElem?_eq_getElem hr]
    simp
  · intro v st1 hv
    rw [hrun, hv]
    rfl

theorem bang_returns_one_witness :
    atoi "0" = ((0 : Nat) : Int) ∧ 0 < (appended ["exit\n", "! 0\n"]).history.length ∧
    ∃ s, (history_loop (appended ["exit\n", "! 0\n"]).history
          (list_last_entry (appended ["exit\n", "! 0\n"]).history) 0)[0]? =
        some (Event.stderr (history_line 0 s)) ∧
      run_command sys_shell (0 + 1) (appended ["exit\n", "! 0\n"]) ("!" :: "0" :: []) =
        bang_return (__process_command sys_shell 0 (appended ["exit\n", "! 0\n"]) s) ∧
      ∀ v st1, __process_command sys_shell 0 (appended ["exit\n", "! 0\n"]) s =
          some (Outcome.ret v, st1) →
        run_command sys_shell (0 + 1) (appended ["exit\n", "! 0\n"]) ("!" :: "0" :: []) =
          some (Outcome.ret 1, st1) :=
  ⟨by decide, by decide,
    bang_returns_one sys_shell 0 (appended ["exit\n", "! 0\n"]) "0" [] 0 (by decide)
      (by decide)⟩

/-- In a child whose `execvp` fails, `run_command` reports the program and returns
`-EINVAL` to its caller, and the pass of the loop in `main` that called it goes on to the
next round. -/
theorem child_exec_failure (sys : Sys) (depth : Nat) (st : Shell) (command t0 : String)
    (args : List String) (hp : sys.parse_command command = t0 :: args)
    (hb : is_builtin t0 = false) (ht0 : t0 ≠ "|") (hchild : sys.fork = 0)
    (hfail : sys.execvp_ok t0 (argv_of (null_pipes (t0 :: args))) = false) :
    run_command sys depth st (t0 :: args) =
        some (Outcome.ret (-EINVAL), ⟨st.history, st.trace ++ [Event.fork 0,
          Event.execvp t0 (argv_of (null_pipes (t0 :: args))),
          Event.stderr ("Unable to execute " ++ t0 ++ "\n")]⟩) ∧
    main_iteration sys depth st (some command) =
        some (Ctl.again, ⟨command :: st.history, st.trace ++ [Event.fork 0,
          Event.execvp t0 (argv_of (null_pipes (t0 :: args))),
          Event.stderr ("Unable to execute " ++ t0 ++ "\n")]⟩) := by
  have hnp : null_pipes (t0 :: args) = some t0 :: null_pipes args := by
    simp [null_pipes, ht0]
  have hrun : ∀ st : Shell, run_command sys depth st (t0 :: args) =
      some (Outcome.ret (-EINVAL), ⟨st.history, st.trace ++ [Event.fork 0,
        Event.execvp t0 (argv_of (null_pipes (t0 :: args))),
        Event.stderr ("Unable to execute " ++ t0 ++ "\n")]⟩) := by
    intro st
    rw [run_command_external_eq sys depth st t0 args hb]
    simp only [run_external, hchild, if_true]
    rw [hnp]
    simp only [run_child]
    rw [← hnp, hfail]
    simp [Shell.emit]
  refine ⟨hrun st, ?_⟩
  simp only [main_iteration, __process_command, process_with, hp]
  rw [if_neg (by simp), hrun]
  simp [append_history, list_add, EINVAL]

/-- C9 (the code at the failing input): in the child created for `nonexistent_binary_xyz`,
where `execvp` fails, `run_command` writes the message naming the program and then returns
-22 to its caller; the pass of the loop in `main` therefore ends with "go round again",
and the child goes on to read and execute the next line (here `history`) itself. -/
theorem child_returns_into_main_loop :
    run_command sys_child_noexec 0 Shell.init ["nonexistent_binary_xyz"] =
      some (Outcome.ret (-22), ⟨[], [Event.fork 0,
        Event.execvp "nonexistent_binary_xyz" ["nonexistent_binary_xyz"],
        Event.stderr "Unable to execute nonexistent_binary_xyz\n"]⟩) ∧
    main_iteration sys_child_noexec 0 Shell.init (some "nonexistent_binary_xyz\n") =
      some (Ctl.again, ⟨["nonexistent_binary_xyz\n"], [Event.fork 0,
        Event.execvp "nonexistent_binary_xyz" ["nonexistent_binary_xyz"],
        Event.stderr "Unable to execute nonexistent_binary_xyz\n"]⟩) ∧
    main_loop 0 [(sys_child_noexec, "nonexistent_binary_xyz\n"), (sys_shell, "history\n")]
        Shell.init =
      some (Ctl.stop, ⟨[], [Event.fork 0,
        Event.execvp "nonexistent_binary_xyz" ["nonexistent_binary_xyz"],
        Event.stderr "Unable to execute nonexistent_binary_xyz\n",
        Event.stderr " 0: nonexistent_binary_xyz\n", Event.stderr " 1: history\n"]⟩) := by
  decide

/-- C10: the `!` recall has no recursion bound. When the line `! 0` is the first one typed,
the history holds that line alone, index 0 resolves to it, and interpreting it calls
`__process_command` on the same text in the same state again: at no depth does
`run_command`, `__process_command` or the pass of the loop in `main` return. -/
theorem bang_self_recall_never_returns (sys : Sys) (st0 : Shell)
    (hparse : sys.parse_command "! 0\n" = ["!", "0"]) (h0 : st0.history = []) :
    (append_history st0 "! 0\n").history = ["! 0\n"] ∧
    entry_string (append_history st0 "! 0\n").history
      (bang_cursor (append_history st0 "! 0\n").history (atoi "0")) = some "! 0\n" ∧
    ∀ depth, run_command sys depth (append_history st0 "! 0\n") ["!", "0"] = none ∧
      __process_command sys depth (append_history st0 "! 0\n") "! 0\n" = none ∧
      main_iteration sys depth st0 (some "! 0\n") = none := by
  have hh : (append_history st0 "! 0\n").history = ["! 0\n"] := by
    simp [append_history, list_add, h0]
  have ha : atoi "0" = 0 := by decide
  have hsel : entry_string (append_history st0 "! 0\n").history
      (bang_cursor (append_history st0 "! 0\n").history (atoi "0")) = some "! 0\n" := by
    rw [hh, ha]; rfl
  have hproc : ∀ depth, run_command sys depth (append_history st0 "! 0\n") ["!", "0"] = none →
      __process_command sys depth (append_history st0 "! 0\n") "! 0\n" = none := by
    intro depth hd
    simp only [__process_command, process_with, hparse]
    rw [if_neg (by simp)]
    exact hd
  have hrun : ∀ depth, run_command sys depth (append_history st0 "! 0\n") ["!", "0"] = none := by
    intro depth
    induction depth with
    | zero =>
      rw [run_command_bang_zero]
      simp only [run_bang, hsel]
      rfl
    | succ d ih =>
      rw [run_command_bang_eq]
      simp only [run_bang, hsel]
      rw [hproc d ih]
      rfl
  refine ⟨hh, hsel, fun depth => ⟨hrun depth, hproc depth (hrun depth), ?_⟩⟩
  simp only [main_iteration]
  rw [hproc depth (hrun depth)]

theorem bang_self_recall_never_returns_witness :
    sys_shell.parse_command "! 0\n" = ["!", "0"] ∧ Shell.init.history = [] ∧
    ((append_history Shell.init "! 0\n").history = ["! 0\n"] ∧
    entry_string (append_history Shell.init "! 0\n").history
      (bang_cursor (append_history Shell.init "! 0\n").history (atoi "0")) = some "! 0\n" ∧
    ∀ depth, run_command sys_shell depth (append_history Shell.init "! 0\n") ["!", "0"] = none ∧
      __process_command sys_shell depth (append_history Shell.init "! 0\n") "! 0\n" = none ∧
      main_iteration sys_shell depth Shell.init (some "! 0\n") = none) :=
  ⟨by decide, by decide,
    bang_self_recall_never_returns sys_shell Shell.init (by decide) (by decide)⟩

end Pa1
